import Mathlib

/-!
Verification development for the batched DOM mutation scheduler of the
toolkit (the `Element` wrapper class and its `Toolkit.aria` global).

Shallow embedding conventions:
 - JS objects become insertion-ordered association lists (`jsSet` is the
   JS assignment `obj[k] = v`: an existing key keeps its position and gets
   the new value, a new key is appended).
 - The DOM element becomes an explicit record of its class list, attribute
   map, property map and inline-style map; these are exactly the four
   channels the scheduler mutates (`classList`, `setAttribute`, direct
   property assignment, `style`).  Setting an inline style to the empty
   string stands for clearing it, per CSSOM assignment semantics.
 - `requestAnimationFrame` becomes a FIFO task list processed by a fueled
   loop; a promise becomes an entry in an explicit future table that is
   `pending`, `resolved` or `rejected` with a payload.
 - `forOwn` (a repository helper not included under `src/`, a plain
   own-key iteration) visits keys in the standard JS own-property order:
   insertion order, since every key involved is a non-integer string key.
-/

namespace Titon

/-- JS runtime values that flow through the scheduler API. -/
inductive JSVal where
  | str (s : String)
  | bool (b : Bool)
  | num (n : Int)
  | null
deriving DecidableEq, Repr

/-- JS `String(value)` coercion, as performed by `setAttribute`. -/
def jsToString : JSVal → String
  | .str s => s
  | .bool true => "true"
  | .bool false => "false"
  | .num n => toString n
  | .null => "null"

/-- Assignment `obj[k] = v` on a JS object represented as an
insertion-ordered association list: an existing key keeps its position and
receives the new value, a new key is appended at the end. -/
def jsSet {κ α : Type} [BEq κ] : List (κ × α) → κ → α → List (κ × α)
  | [], k, v => [(k, v)]
  | p :: rest, k, v => if p.1 == k then (k, v) :: rest else p :: jsSet rest k v

/-- The DOM element wrapped by the scheduler.  The four components are the
four mutation channels used by `processQueue`. -/
structure Elem where
  classes : List String
  attributes : List (String × String)
  properties : List (String × JSVal)
  styles : List (String × JSVal)
deriving DecidableEq, Repr

/-- DOM `classList.add`: appends the token unless it is already present. -/
def classListAdd (cs : List String) (c : String) : List String :=
  if cs.contains c then cs else cs ++ [c]

/-- DOM `classList.remove`: removes the token. -/
def classListRemove (cs : List String) (c : String) : List String :=
  cs.filter (fun x => x != c)

/-- DOM `element.setAttribute(k, v)`. -/
def elemSetAttribute (t : Elem) (k v : String) : Elem :=
  { t with attributes := jsSet t.attributes k v }

/-- JS `element[k] = v` (direct property assignment). -/
def elemSetProperty (t : Elem) (k : String) (v : JSVal) : Elem :=
  { t with properties := jsSet t.properties k v }

/-- JS `element.style[k] = v`. -/
def elemSetStyle (t : Elem) (k : String) (v : JSVal) : Elem :=
  { t with styles := jsSet t.styles k v }

/-- The `addClass` / `removeClass` slots of the mutation queue object.
`this.queue.addClass = c` and `this.queue.removeClass = c` are plain JS
property assignments on the queue object, so the queue holds at most one
value per slot together with the relative insertion order of the two keys
(a later assignment to an existing key keeps the key at its position).
The five constructors enumerate exactly the reachable shapes of that pair
of keys: absent, one present, or both present in either insertion order. -/
inductive ClassOps where
  | none
  | addOnly (a : String)
  | remOnly (r : String)
  | addRem (a r : String)
  | remAdd (r a : String)
deriving DecidableEq, Repr

/-- Effect of `this.queue.addClass = c` on the two class slots. -/
def setAddSlot : ClassOps → String → ClassOps
  | .none, c => .addOnly c
  | .addOnly _, c => .addOnly c
  | .remOnly r, c => .remAdd r c
  | .addRem _ r, c => .addRem c r
  | .remAdd r _, c => .remAdd r c

/-- Effect of `this.queue.removeClass = c` on the two class slots. -/
def setRemSlot : ClassOps → String → ClassOps
  | .none, c => .remOnly c
  | .addOnly a, c => .addRem a c
  | .remOnly _, c => .remOnly c
  | .addRem a _, c => .addRem a c
  | .remAdd _ a, c => .remAdd c a

/-- Flush-time application of the two class slots in their key insertion
order, exactly as the `forOwn` loop of `processQueue` visits them. -/
def applyClassOps : ClassOps → List String → List String
  | .none, cs => cs
  | .addOnly a, cs => classListAdd cs a
  | .remOnly r, cs => classListRemove cs r
  | .addRem a r, cs => classListRemove (classListAdd cs a) r
  | .remAdd r a, cs => classListAdd (classListRemove cs r) a

/-- Pending add-class value, regardless of slot order. -/
def getAddSlot : ClassOps → Option String
  | .none => none
  | .addOnly a => some a
  | .remOnly _ => none
  | .addRem a _ => some a
  | .remAdd _ a => some a

/-- Pending remove-class value, regardless of slot order. -/
def getRemSlot : ClassOps → Option String
  | .none => none
  | .addOnly _ => none
  | .remOnly r => some r
  | .addRem _ r => some r
  | .remAdd r _ => some r

/-- Whether the remove-class key was inserted before the add-class key. -/
def isRemAdd : ClassOps → Bool
  | .remAdd _ _ => true
  | _ => false

/-- The mutation queue object as (re)built by `resetQueue`:
`{ attributes: {}, properties: {}, styles: {} }`, plus the two class slots
added later by `addClass` / `removeClass`.  The three map keys are inserted
first, so the `forOwn` loop of `processQueue` visits attributes, properties
and styles before the class slots, and the class slots in their own
insertion order (tracked by `ClassOps`). -/
structure Queue where
  attributes : List (String × String)
  properties : List (String × JSVal)
  styles : List (String × JSVal)
  classOps : ClassOps
deriving DecidableEq, Repr

/-- The queue value installed by `resetQueue`. -/
def resetQueueVal : Queue := ⟨[], [], [], .none⟩

/-- The `Element` wrapper class: DOM element reference (nullable), mutation
queue, and the two reentrancy flags. -/
structure Element where
  element : Option Elem
  queue : Queue
  reading : Bool
  writing : Bool
deriving DecidableEq, Repr

/-- The constructor: stores the element and calls `resetQueue`. -/
def construct (e : Option Elem) : Element :=
  { element := e, queue := resetQueueVal, reading := false, writing := false }

/-- Method `addClass`: `this.queue.addClass = className`. -/
def addClass (el : Element) (c : String) : Element :=
  { el with queue := { el.queue with classOps := setAddSlot el.queue.classOps c } }

/-- Method `removeClass`: `this.queue.removeClass = className`. -/
def removeClass (el : Element) (c : String) : Element :=
  { el with queue := { el.queue with classOps := setRemSlot el.queue.classOps c } }

/-- Method `hasClass`: `this.element.classList.contains(className)` — a
query on the live element, never on the pending queue.  `none` models the
failure on a missing element. -/
def hasClass (el : Element) (c : String) : Option Bool :=
  el.element.map (fun t => t.classes.contains c)

/-- Method `setAttribute`: `this.queue.attributes[attribute] = String(value)`. -/
def setAttribute (el : Element) (k : String) (v : JSVal) : Element :=
  { el with queue :=
      { el.queue with attributes := jsSet el.queue.attributes k (jsToString v) } }

/-- Method `setAttributes`: `forOwn(attributes, this.setAttribute.bind(this))`. -/
def setAttributes (el : Element) (m : List (String × JSVal)) : Element :=
  m.foldl (fun acc p => setAttribute acc p.1 p.2) el

/-- Method `setProperty`: `this.queue.properties[property] = value` (stored
as-is, no coercion). -/
def setProperty (el : Element) (k : String) (v : JSVal) : Element :=
  { el with queue := { el.queue with properties := jsSet el.queue.properties k v } }

/-- Method `setProperties`. -/
def setProperties (el : Element) (m : List (String × JSVal)) : Element :=
  m.foldl (fun acc p => setProperty acc p.1 p.2) el

/-- Method `setStyle`: `this.queue.styles[property] = value`. -/
def setStyle (el : Element) (k : String) (v : JSVal) : Element :=
  { el with queue := { el.queue with styles := jsSet el.queue.styles k v } }

/-- Method `setStyles`. -/
def setStyles (el : Element) (m : List (String × JSVal)) : Element :=
  m.foldl (fun acc p => setStyle acc p.1 p.2) el

/-- Helper for `setAria` on a non-`toggled` key:
`this.setAttribute('aria-' + key, value)`. -/
def setAriaOne (el : Element) (k : String) (v : JSVal) : Element :=
  setAttribute el ("aria-" ++ k) v

/-- Method `setAria`, with the global `Toolkit.aria` flag passed explicitly
(it defaults to `true` in the `Toolkit` object).  When the flag is off the
method returns `this` unchanged; a `toggled` key fans out through
`setArias({ expanded: value, selected: value })`, i.e. two plain
`setAria` calls on non-`toggled` keys, in object insertion order. -/
def setAria (aria : Bool) (el : Element) (k : String) (v : JSVal) : Element :=
  if aria = false then el
  else if k = "toggled" then setAriaOne (setAriaOne el "expanded" v) "selected" v
  else setAriaOne el k v

/-- Method `setArias`: `forOwn(keys, this.setAria.bind(this))`. -/
def setArias (aria : Bool) (el : Element) (m : List (String × JSVal)) : Element :=
  m.foldl (fun acc p => setAria aria acc p.1 p.2) el

/-- Method `reveal`: when `dontShow` is false, first
`this.setStyle('display', '')`; then `removeClass('hide')`,
`addClass('show')`, `setAria('hidden', false)`. -/
def reveal (aria : Bool) (el : Element) (dontShow : Bool) : Element :=
  let el1 := if dontShow then el else setStyle el "display" (.str "")
  setAria aria (addClass (removeClass el1 "hide") "show") "hidden" (.bool false)

/-- Flush of the attributes map:
`forOwn(value, (k, v) => element.setAttribute(k, v))`. -/
def applyAttrs (t : Elem) (m : List (String × String)) : Elem :=
  m.foldl (fun acc p => elemSetAttribute acc p.1 p.2) t

/-- Flush of the properties map: `forOwn(value, (k, v) => element[k] = v)`. -/
def applyProps (t : Elem) (m : List (String × JSVal)) : Elem :=
  m.foldl (fun acc p => elemSetProperty acc p.1 p.2) t

/-- Flush of the styles map: `forOwn(value, (k, v) => element.style[k] = v)`. -/
def applyStyles (t : Elem) (m : List (String × JSVal)) : Elem :=
  m.foldl (fun acc p => elemSetStyle acc p.1 p.2) t

/-- Method `processQueue`.  Throws when no element is bound.  The `forOwn`
loop visits the queue object keys in insertion order: `attributes`,
`properties`, `styles` (all inserted by `resetQueue`) and then the
`addClass` / `removeClass` keys in their own insertion order.  Ends by
calling `resetQueue`. -/
def processQueue (el : Element) : Except String Element :=
  match el.element with
  | none => .error "No element in container. Cannot process queue."
  | some t =>
      let t1 := applyAttrs t el.queue.attributes
      let t2 := applyProps t1 el.queue.properties
      let t3 := applyStyles t2 el.queue.styles
      let t4 := { t3 with classes := applyClassOps el.queue.classOps t3.classes }
      .ok { el with element := some t4, queue := resetQueueVal }

/-- Flush in the fixed order stated by the specification: add-class first,
then remove-class, then all pending attributes, properties and styles, and
finally the queue reset.  This definition follows the words of the spec and
exists only to be compared against `processQueue`. -/
def specProcessQueue (el : Element) : Except String Element :=
  match el.element with
  | none => .error "No element in container. Cannot process queue."
  | some t =>
      let t1 := match getAddSlot el.queue.classOps with
                | some a => { t with classes := classListAdd t.classes a }
                | none => t
      let t2 := match getRemSlot el.queue.classOps with
                | some r => { t1 with classes := classListRemove t1.classes r }
                | none => t1
      let t3 := applyAttrs t2 el.queue.attributes
      let t4 := applyProps t3 el.queue.properties
      let t5 := applyStyles t4 el.queue.styles
      .ok { el with element := some t5, queue := resetQueueVal }

/-- Element state reached by a successful flush. -/
def flushedElem (el : Element) : Option Elem :=
  match processQueue el with
  | .ok el2 => el2.element
  | .error _ => none

/-- Element state reached by the spec-order flush `specProcessQueue`. -/
def specFlushedElem (el : Element) : Option Elem :=
  match specProcessQueue el with
  | .ok el2 => el2.element
  | .error _ => none

/-- Attribute value carried by the target after a successful flush. -/
def flushAttr (el : Element) (k : String) : Option String :=
  (flushedElem el).bind (fun t => t.attributes.lookup k)

/-- Property value carried by the target after a successful flush. -/
def flushProp (el : Element) (k : String) : Option JSVal :=
  (flushedElem el).bind (fun t => t.properties.lookup k)

/-- Inline-style value carried by the target after a successful flush. -/
def flushStyle (el : Element) (k : String) : Option JSVal :=
  (flushedElem el).bind (fun t => t.styles.lookup k)

/-- A target with no classes, attributes, properties or inline styles. -/
def t0 : Elem := ⟨[], [], [], []⟩

/-- Payload a promise settles with: the scheduler instance (`this`) or an
original error object.  The source only ever settles with `this` —
`resolve(this)` and `reject(this)` — never with the caught error. -/
inductive Payload where
  | inst
  | errObj
deriving DecidableEq, Repr

/-- State of one promise. -/
inductive FState where
  | pending
  | resolved (p : Payload)
  | rejected (p : Payload)
deriving DecidableEq, Repr

/-- What a `read` call returns: the `null` reentrancy sentinel or a promise. -/
inductive CallRes where
  | nullRes
  | futureRes (fid : Nat)
deriving DecidableEq, Repr

/-- What a `write` call produces: the `null` sentinel, a synchronously
escaping exception, or a promise. -/
inductive WCallRes where
  | nullRes
  | threwRes
  | futureRes (fid : Nat)
deriving DecidableEq, Repr

/-- Queue mutations a callback may perform on `this`. -/
inductive QOp where
  | addC (c : String)
  | remC (c : String)
  | setAttr (k : String) (v : JSVal)
  | setProp (k : String) (v : JSVal)
  | setSty (k : String) (v : JSVal)
deriving DecidableEq, Repr

/-- Dispatch of a queue mutation to the corresponding method. -/
def applyQOpEl (el : Element) : QOp → Element
  | .addC c => addClass el c
  | .remC c => removeClass el c
  | .setAttr k v => setAttribute el k v
  | .setProp k v => setProperty el k v
  | .setSty k v => setStyle el k v

/-- A sequence of synchronous queue-setter calls. -/
def applyOps (el : Element) (ops : List QOp) : Element :=
  ops.foldl applyQOpEl el

/-- Body of a caller-supplied callback, deeply embedded so that reentrant
`read` / `write` calls made from inside a callback can be expressed.
`throwErr` raises; `qop` performs a synchronous queue-setter call;
`nestedRead` / `nestedWrite` call `read` / `write` on `this` (their return
values are discarded, and a throw from a nested synchronous `write`
callback propagates into the enclosing body). -/
inductive Act where
  | nop
  | seq (a b : Act)
  | throwErr
  | qop (op : QOp)
  | nestedRead (cbId : Nat) (body : Act)
  | nestedWrite (cbId : Nat) (body : Act)
deriving DecidableEq, Repr

/-- A pending `requestAnimationFrame` registration. -/
inductive Task where
  | readT (cbId : Nat) (body : Act) (fid : Nat)
  | writeT (fid : Nat)
deriving DecidableEq, Repr

/-- Scheduler instance plus host state: the FIFO frame-task list, the
promise table, a fresh-promise counter, and the ordered log of which
callbacks were invoked. -/
structure Sys where
  el : Element
  tasks : List Task
  futures : List (Nat × FState)
  nextF : Nat
  invoked : List Nat
deriving DecidableEq, Repr

/-- Settle the promise `fid`. -/
def setFuture (s : Sys) (fid : Nat) (st : FState) : Sys :=
  { s with futures := jsSet s.futures fid st }

/-- Observe the state of promise `fid`. -/
def getFuture (s : Sys) (fid : Nat) : Option FState :=
  s.futures.lookup fid

/-- Method `read`: refuse with `null` while `reading` is set; otherwise
create a pending promise and register a frame task that will run the
callback on the next tick.  (The `reading` flag itself is only toggled
inside that tick.) -/
def read (s : Sys) (cbId : Nat) (body : Act) : Sys × CallRes :=
  if s.el.reading then (s, .nullRes)
  else
    ({ s with
        tasks := s.tasks ++ [.readT cbId body s.nextF],
        futures := s.futures ++ [(s.nextF, .pending)],
        nextF := s.nextF + 1 },
     .futureRes s.nextF)

/-- Shared tail of `write`: create the pending promise and register the
frame task that will run `processQueue` on the next tick. -/
def scheduleWriteTask (s : Sys) : Sys × WCallRes :=
  ({ s with
      tasks := s.tasks ++ [.writeT s.nextF],
      futures := s.futures ++ [(s.nextF, .pending)],
      nextF := s.nextF + 1 },
   .futureRes s.nextF)

/-- State in which a `write` callback starts executing: `writing` set and
the callback logged as invoked. -/
def writeStart (s : Sys) (cbId : Nat) : Sys :=
  { s with el := { s.el with writing := true }, invoked := s.invoked ++ [cbId] }

/-- Execution of a callback body.  Returns the new state and whether the
body threw.  The `nestedWrite` case mirrors the `write` method: refuse
while `writing` is set; otherwise run the callback under the flag — a
throw propagates and skips both the flag reset and the promise creation —
then schedule the flush task. -/
def execAct : Act → Sys → Sys × Bool
  | .nop, s => (s, false)
  | .seq a b, s =>
      match execAct a s with
      | (s1, true) => (s1, true)
      | (s1, false) => execAct b s1
  | .throwErr, s => (s, true)
  | .qop op, s => ({ s with el := applyQOpEl s.el op }, false)
  | .nestedRead cbId body, s => ((read s cbId body).1, false)
  | .nestedWrite cbId body, s =>
      if s.el.writing then (s, false)
      else
        match execAct body (writeStart s cbId) with
        | (s2, true) => (s2, true)
        | (s2, false) =>
            ((scheduleWriteTask { s2 with el := { s2.el with writing := false } }).1,
             false)

/-- Method `write`: refuse with `null` while `writing` is set; run the
optional callback synchronously under the `writing` flag (an exception
escapes to the caller, skipping both the flag reset and the promise
creation); then schedule the flush task. -/
def write (s : Sys) (cb : Option (Nat × Act)) : Sys × WCallRes :=
  if s.el.writing then (s, .nullRes)
  else
    match cb with
    | none => scheduleWriteTask s
    | some (cbId, body) =>
        match execAct body (writeStart s cbId) with
        | (s2, true) => (s2, .threwRes)
        | (s2, false) =>
            scheduleWriteTask { s2 with el := { s2.el with writing := false } }

/-- Body of the frame callback registered by `read`: set `reading`, log the
invocation, run the callback. -/
def readTick (s : Sys) (cbId : Nat) (body : Act) : Sys × Bool :=
  execAct body
    { s with el := { s.el with reading := true }, invoked := s.invoked ++ [cbId] }

/-- One frame task.  For a read tick: on normal return clear `reading` and
resolve with `this`; on a throw the `catch` only rejects with `this` — the
`this.reading = false` line inside the `try` is skipped, so the flag stays
set.  For a write tick: run `processQueue` and resolve with `this`, or
reject with `this` when it threw. -/
def runTask (t : Task) (s : Sys) : Sys :=
  match t with
  | .readT cbId body fid =>
      match readTick s cbId body with
      | (s2, true) => setFuture s2 fid (.rejected .inst)
      | (s2, false) =>
          setFuture { s2 with el := { s2.el with reading := false } } fid
            (.resolved .inst)
  | .writeT fid =>
      match processQueue s.el with
      | .ok el2 => setFuture { s with el := el2 } fid (.resolved .inst)
      | .error _ => setFuture s fid (.rejected .inst)

/-- Fueled FIFO frame loop over the pending tasks. -/
def runLoop : Nat → Sys → Sys
  | 0, s => s
  | n + 1, s =>
      match s.tasks with
      | [] => s
      | t :: rest => runLoop n (runTask t { s with tasks := rest })

/-- A fresh scheduler over `t0` with empty host state. -/
def sys0 : Sys :=
  { el := construct (some t0), tasks := [], futures := [], nextF := 0, invoked := [] }

/-- Keys of the three queue maps are pairwise distinct — the invariant that
every reachable queue satisfies, since a JS object cannot hold duplicate
keys. -/
def WFQueue (q : Queue) : Prop :=
  (q.attributes.map Prod.fst).Nodup ∧ (q.properties.map Prod.fst).Nodup ∧
    (q.styles.map Prod.fst).Nodup

/-- Selector for `setAttribute` calls. -/
def selAttr : QOp → Option (String × JSVal)
  | .setAttr k v => some (k, v)
  | _ => none

/-- Selector for `setProperty` calls. -/
def selProp : QOp → Option (String × JSVal)
  | .setProp k v => some (k, v)
  | _ => none

/-- Selector for `setStyle` calls. -/
def selStyle : QOp → Option (String × JSVal)
  | .setSty k v => some (k, v)
  | _ => none

/-- Value of the last call among `ops` that sets key `k` through the
selector `sel`. -/
def lastVal (sel : QOp → Option (String × JSVal)) : List QOp → String → Option JSVal
  | [], _ => none
  | op :: rest, k =>
      match lastVal sel rest k with
      | some v => some v
      | none =>
          match sel op with
          | some (k2, v) => if k2 = k then some v else none
          | none => none

/-- A fresh scheduler on which `removeClass "x"` was queued before
`addClass "x"`. -/
def elC1 : Element := addClass (removeClass (construct (some t0)) "x") "x"

/-- A fresh scheduler on which `addClass "a"` was queued before
`removeClass "b"`. -/
def elW1 : Element := removeClass (addClass (construct (some t0)) "a") "b"

/-- A scheduler state whose `reading` flag is set (as during a read tick). -/
def sysR : Sys := { sys0 with el := { sys0.el with reading := true } }

/-- A scheduler state whose `writing` flag is set (as during a write
callback). -/
def sysW : Sys := { sys0 with el := { sys0.el with writing := true } }

end Titon



namespace Titon

/-- Reading back the key just assigned into a JS object yields the
assigned value. -/
theorem lookup_jsSet_self {κ α : Type} [BEq κ] [LawfulBEq κ]
    (m : List (κ × α)) (k : κ) (v : α) : (jsSet m k v).lookup k = some v := by
  induction m with
  | nil => simp [jsSet, List.lookup]
  | cons p rest ih =>
      by_cases h : p.1 = k
      · simp [jsSet, h, List.lookup]
      · have hb : (k == p.1) = false := by simp [Ne.symm h]
        simp [jsSet, h, List.lookup, ih, hb]

/-- Assigning one key leaves every other key unchanged. -/
theorem lookup_jsSet_ne {κ α : Type} [BEq κ] [LawfulBEq κ]
    (m : List (κ × α)) (k k2 : κ) (v : α) (h : k2 ≠ k) :
    (jsSet m k v).lookup k2 = m.lookup k2 := by
  have hb : (k2 == k) = false := by simp [h]
  induction m with
  | nil => simp [jsSet, List.lookup, hb]
  | cons p rest ih =>
      by_cases hp : p.1 = k
      · simp [jsSet, hp, List.lookup, hb]
      · by_cases h2 : k2 = p.1
        · have hb2 : (k2 == p.1) = true := by simp [h2]
          simp [jsSet, hp, List.lookup, hb2]
        · have hb2 : (k2 == p.1) = false := by simp [h2]
          simp [jsSet, hp, List.lookup, hb2, ih]

/-- Key membership after a JS assignment. -/
theorem mem_keys_jsSet {κ α : Type} [BEq κ] [LawfulBEq κ]
    (m : List (κ × α)) (k x : κ) (v : α) :
    x ∈ (jsSet m k v).map Prod.fst ↔ x ∈ m.map Prod.fst ∨ x = k := by
  induction m with
  | nil => simp [jsSet]
  | cons p rest ih =>
      by_cases hp : p.1 = k
      · subst hp; simp [jsSet]; tauto
      · simp [jsSet, hp, ih]; tauto

/-- JS assignment preserves distinctness of keys. -/
theorem nodup_keys_jsSet {κ α : Type} [BEq κ] [LawfulBEq κ]
    (m : List (κ × α)) (k : κ) (v : α) (h : (m.map Prod.fst).Nodup) :
    ((jsSet m k v).map Prod.fst).Nodup := by
  induction m with
  | nil => simp [jsSet]
  | cons p rest ih =>
      simp only [List.map_cons, List.nodup_cons] at h
      by_cases hp : p.1 = k
      · subst hp; simpa [jsSet] using h
      · simp only [jsSet, beq_iff_eq, hp, if_false, List.map_cons, List.nodup_cons]
        refine ⟨?_, ih h.2⟩
        intro hmem
        rw [mem_keys_jsSet] at hmem
        rcases hmem with hmem | hmem
        · exact h.1 hmem
        · exact hp hmem

/-- Folding JS assignments over entries that never mention `k` leaves the
value at `k` unchanged. -/
theorem foldl_jsSet_lookup_not_mem {κ α : Type} [BEq κ] [LawfulBEq κ]
    (m : List (κ × α)) (k : κ) (acc : List (κ × α))
    (h : k ∉ m.map Prod.fst) :
    (m.foldl (fun a p => jsSet a p.1 p.2) acc).lookup k = acc.lookup k := by
  induction m generalizing acc with
  | nil => rfl
  | cons p rest ih =>
      simp only [List.map_cons, List.mem_cons, not_or] at h
      rw [List.foldl_cons, ih _ h.2, lookup_jsSet_ne _ _ _ _ h.1]

/-- Applying a whole JS object with distinct keys onto an accumulator, in
entry order, installs each recorded value. -/
theorem foldl_jsSet_lookup {κ α : Type} [BEq κ] [LawfulBEq κ]
    (m : List (κ × α)) (k : κ) (v : α) (acc : List (κ × α))
    (hnd : (m.map Prod.fst).Nodup) (h : m.lookup k = some v) :
    (m.foldl (fun a p => jsSet a p.1 p.2) acc).lookup k = some v := by
  induction m generalizing acc with
  | nil => simp [List.lookup] at h
  | cons p rest ih =>
      simp only [List.map_cons, List.nodup_cons] at hnd
      by_cases hk : k = p.1
      · have hb : (k == p.1) = true := by simp [hk]
        have hv : p.2 = v := by
          simpa [List.lookup, hb] using h
        have hnm : k ∉ rest.map Prod.fst := by rw [hk]; exact hnd.1
        rw [List.foldl_cons, foldl_jsSet_lookup_not_mem _ _ _ hnm, hk,
          lookup_jsSet_self, hv]
      · have hb : (k == p.1) = false := by simp [hk]
        have h2 : rest.lookup k = some v := by
          simpa [List.lookup, hb] using h
        rw [List.foldl_cons]
        exact ih _ hnd.2 h2

end Titon

namespace Titon

/-- The attributes flush is a fold of JS assignments on the attributes
component; the other components are untouched. -/
theorem applyAttrs_eq (t : Elem) (m : List (String × String)) :
    applyAttrs t m =
      { t with attributes := m.foldl (fun a p => jsSet a p.1 p.2) t.attributes } := by
  induction m generalizing t with
  | nil => rfl
  | cons p rest ih =>
      have h1 : applyAttrs t (p :: rest) = applyAttrs (elemSetAttribute t p.1 p.2) rest := rfl
      rw [h1, ih]
      rfl

/-- The properties flush is a fold of JS assignments on the properties
component; the other components are untouched. -/
theorem applyProps_eq (t : Elem) (m : List (String × JSVal)) :
    applyProps t m =
      { t with properties := m.foldl (fun a p => jsSet a p.1 p.2) t.properties } := by
  induction m generalizing t with
  | nil => rfl
  | cons p rest ih =>
      have h1 : applyProps t (p :: rest) = applyProps (elemSetProperty t p.1 p.2) rest := rfl
      rw [h1, ih]
      rfl

/-- The styles flush is a fold of JS assignments on the styles component;
the other components are untouched. -/
theorem applyStyles_eq (t : Elem) (m : List (String × JSVal)) :
    applyStyles t m =
      { t with styles := m.foldl (fun a p => jsSet a p.1 p.2) t.styles } := by
  induction m generalizing t with
  | nil => rfl
  | cons p rest ih =>
      have h1 : applyStyles t (p :: rest) = applyStyles (elemSetStyle t p.1 p.2) rest := rfl
      rw [h1, ih]
      rfl

/-- A removed token is no longer contained in the class list. -/
theorem classListRemove_contains_self (cs : List String) (c : String) :
    (classListRemove cs c).contains c = false := by
  induction cs with
  | nil => rfl
  | cons x rest ih =>
      by_cases h : x = c
      · rw [show classListRemove (x :: rest) c = classListRemove rest c by
          simp [classListRemove, List.filter_cons, h]]
        exact ih
      · have hb : (x != c) = true := by simp [h]
        have hb2 : (c == x) = false := by simp [Ne.symm h]
        have h1 : classListRemove (x :: rest) c = x :: classListRemove rest c := by
          simp [classListRemove, List.filter_cons, hb]
        rw [h1, List.contains_cons, hb2]
        simpa using ih

/-- The synchronous queue setters leave the element reference unchanged. -/
theorem applyQOpEl_element (el : Element) (op : QOp) :
    (applyQOpEl el op).element = el.element := by
  cases op <;> rfl

/-- A whole sequence of queue setters leaves the element reference
unchanged. -/
theorem applyOps_element (el : Element) (ops : List QOp) :
    (applyOps el ops).element = el.element := by
  induction ops generalizing el with
  | nil => rfl
  | cons op rest ih =>
      have h1 : applyOps el (op :: rest) = applyOps (applyQOpEl el op) rest := rfl
      rw [h1, ih, applyQOpEl_element]

/-- Queue setters preserve distinctness of the map keys. -/
theorem wfQueue_applyQOpEl (el : Element) (op : QOp) (h : WFQueue el.queue) :
    WFQueue (applyQOpEl el op).queue := by
  obtain ⟨h1, h2, h3⟩ := h
  cases op with
  | addC c => exact ⟨h1, h2, h3⟩
  | remC c => exact ⟨h1, h2, h3⟩
  | setAttr k v => exact ⟨nodup_keys_jsSet _ _ _ h1, h2, h3⟩
  | setProp k v => exact ⟨h1, nodup_keys_jsSet _ _ _ h2, h3⟩
  | setSty k v => exact ⟨h1, h2, nodup_keys_jsSet _ _ _ h3⟩

/-- Sequences of queue setters preserve distinctness of the map keys. -/
theorem wfQueue_applyOps (el : Element) (ops : List QOp) (h : WFQueue el.queue) :
    WFQueue (applyOps el ops).queue := by
  induction ops generalizing el with
  | nil => exact h
  | cons op rest ih => exact ih _ (wfQueue_applyQOpEl _ _ h)

end Titon

namespace Titon

/-- When no call in `ops` sets attribute `k`, the pending attribute at `k`
is unchanged by running the sequence. -/
theorem applyOps_attr_lookup_none (ops : List QOp) (k : String) (el : Element)
    (h : lastVal selAttr ops k = none) :
    (applyOps el ops).queue.attributes.lookup k = el.queue.attributes.lookup k := by
  induction ops generalizing el with
  | nil => rfl
  | cons op rest ih =>
      have hr : lastVal selAttr rest k = none := by
        rcases he : lastVal selAttr rest k with _ | v2
        · rfl
        · simp only [lastVal, he] at h
          exact h
      simp only [lastVal, hr] at h
      have hstep : (applyQOpEl el op).queue.attributes.lookup k =
          el.queue.attributes.lookup k := by
        cases op with
        | setAttr k2 v =>
            have hk : ¬k2 = k := by
              simp only [selAttr] at h
              intro hc
              rw [hc] at h
              simp at h
            exact lookup_jsSet_ne _ _ _ _ (Ne.symm hk)
        | addC c => rfl
        | remC c => rfl
        | setProp k2 v => rfl
        | setSty k2 v => rfl
      have h1 : applyOps el (op :: rest) = applyOps (applyQOpEl el op) rest := rfl
      rw [h1, ih _ hr, hstep]

/-- When no call in `ops` sets property `k`, the pending property at `k`
is unchanged by running the sequence. -/
theorem applyOps_prop_lookup_none (ops : List QOp) (k : String) (el : Element)
    (h : lastVal selProp ops k = none) :
    (applyOps el ops).queue.properties.lookup k = el.queue.properties.lookup k := by
  induction ops generalizing el with
  | nil => rfl
  | cons op rest ih =>
      have hr : lastVal selProp rest k = none := by
        rcases he : lastVal selProp rest k with _ | v2
        · rfl
        · simp only [lastVal, he] at h
          exact h
      simp only [lastVal, hr] at h
      have hstep : (applyQOpEl el op).queue.properties.lookup k =
          el.queue.properties.lookup k := by
        cases op with
        | setProp k2 v =>
            have hk : ¬k2 = k := by
              simp only [selProp] at h
              intro hc
              rw [hc] at h
              simp at h
            exact lookup_jsSet_ne _ _ _ _ (Ne.symm hk)
        | addC c => rfl
        | remC c => rfl
        | setAttr k2 v => rfl
        | setSty k2 v => rfl
      have h1 : applyOps el (op :: rest) = applyOps (applyQOpEl el op) rest := rfl
      rw [h1, ih _ hr, hstep]

/-- When no call in `ops` sets style `k`, the pending style at `k` is
unchanged by running the sequence. -/
theorem applyOps_style_lookup_none (ops : List QOp) (k : String) (el : Element)
    (h : lastVal selStyle ops k = none) :
    (applyOps el ops).queue.styles.lookup k = el.queue.styles.lookup k := by
  induction ops generalizing el with
  | nil => rfl
  | cons op rest ih =>
      have hr : lastVal selStyle rest k = none := by
        rcases he : lastVal selStyle rest k with _ | v2
        · rfl
        · simp only [lastVal, he] at h
          exact h
      simp only [lastVal, hr] at h
      have hstep : (applyQOpEl el op).queue.styles.lookup k =
          el.queue.styles.lookup k := by
        cases op with
        | setSty k2 v =>
            have hk : ¬k2 = k := by
              simp only [selStyle] at h
              intro hc
              rw [hc] at h
              simp at h
            exact lookup_jsSet_ne _ _ _ _ (Ne.symm hk)
        | addC c => rfl
        | remC c => rfl
        | setAttr k2 v => rfl
        | setProp k2 v => rfl
      have h1 : applyOps el (op :: rest) = applyOps (applyQOpEl el op) rest := rfl
      rw [h1, ih _ hr, hstep]

/-- After running `ops`, the pending attribute at `k` is the stringified
value of the last `setAttribute` call with key `k`. -/
theorem applyOps_attr_lookup (ops : List QOp) (k : String) (v : JSVal) (el : Element)
    (h : lastVal selAttr ops k = some v) :
    (applyOps el ops).queue.attributes.lookup k = some (jsToString v) := by
  induction ops generalizing el with
  | nil => simp [lastVal] at h
  | cons op rest ih =>
      have h1 : applyOps el (op :: rest) = applyOps (applyQOpEl el op) rest := rfl
      rcases he : lastVal selAttr rest k with _ | v2
      · simp only [lastVal, he] at h
        cases op with
        | setAttr k2 w =>
            simp only [selAttr] at h
            have hk : k2 = k ∧ w = v := by
              by_cases hc : k2 = k
              · rw [hc] at h
                simp at h
                exact ⟨hc, h⟩
              · simp [hc] at h
            rw [h1, applyOps_attr_lookup_none rest k _ he]
            have h2 : (applyQOpEl el (QOp.setAttr k2 w)).queue.attributes =
                jsSet el.queue.attributes k2 (jsToString w) := rfl
            rw [h2, hk.1, hk.2, lookup_jsSet_self]
        | addC c => simp [selAttr] at h
        | remC c => simp [selAttr] at h
        | setProp k2 w => simp [selAttr] at h
        | setSty k2 w => simp [selAttr] at h
      · simp only [lastVal, he] at h
        rw [h1]
        exact ih _ (by rw [he, h])

/-- After running `ops`, the pending property at `k` is the raw value of
the last `setProperty` call with key `k`. -/
theorem applyOps_prop_lookup (ops : List QOp) (k : String) (v : JSVal) (el : Element)
    (h : lastVal selProp ops k = some v) :
    (applyOps el ops).queue.properties.lookup k = some v := by
  induction ops generalizing el with
  | nil => simp [lastVal] at h
  | cons op rest ih =>
      have h1 : applyOps el (op :: rest) = applyOps (applyQOpEl el op) rest := rfl
      rcases he : lastVal selProp rest k with _ | v2
      · simp only [lastVal, he] at h
        cases op with
        | setProp k2 w =>
            simp only [selProp] at h
            have hk : k2 = k ∧ w = v := by
              by_cases hc : k2 = k
              · rw [hc] at h
                simp at h
                exact ⟨hc, h⟩
              · simp [hc] at h
            rw [h1, applyOps_prop_lookup_none rest k _ he]
            have h2 : (applyQOpEl el (QOp.setProp k2 w)).queue.properties =
                jsSet el.queue.properties k2 w := rfl
            rw [h2, hk.1, hk.2, lookup_jsSet_self]
        | addC c => simp [selProp] at h
        | remC c => simp [selProp] at h
        | setAttr k2 w => simp [selProp] at h
        | setSty k2 w => simp [selProp] at h
      · simp only [lastVal, he] at h
        rw [h1]
        exact ih _ (by rw [he, h])

/-- After running `ops`, the pending style at `k` is the raw value of the
last `setStyle` call with key `k`. -/
theorem applyOps_style_lookup (ops : List QOp) (k : String) (v : JSVal) (el : Element)
    (h : lastVal selStyle ops k = some v) :
    (applyOps el ops).queue.styles.lookup k = some v := by
  induction ops generalizing el with
  | nil => simp [lastVal] at h
  | cons op rest ih =>
      have h1 : applyOps el (op :: rest) = applyOps (applyQOpEl el op) rest := rfl
      rcases he : lastVal selStyle rest k with _ | v2
      · simp only [lastVal, he] at h
        cases op with
        | setSty k2 w =>
            simp only [selStyle] at h
            have hk : k2 = k ∧ w = v := by
              by_cases hc : k2 = k
              · rw [hc] at h
                simp at h
                exact ⟨hc, h⟩
              · simp [hc] at h
            rw [h1, applyOps_style_lookup_none rest k _ he]
            have h2 : (applyQOpEl el (QOp.setSty k2 w)).queue.styles =
                jsSet el.queue.styles k2 w := rfl
            rw [h2, hk.1, hk.2, lookup_jsSet_self]
        | addC c => simp [selStyle] at h
        | remC c => simp [selStyle] at h
        | setAttr k2 w => simp [selStyle] at h
        | setProp k2 w => simp [selStyle] at h
      · simp only [lastVal, he] at h
        rw [h1]
        exact ih _ (by rw [he, h])

end Titon

namespace Titon

/-- Attribute flush leaves the class list untouched. -/
theorem applyAttrs_classes (t : Elem) (m : List (String × String)) :
    (applyAttrs t m).classes = t.classes := by
  rw [applyAttrs_eq]

/-- Property flush leaves the class list untouched. -/
theorem applyProps_classes (t : Elem) (m : List (String × JSVal)) :
    (applyProps t m).classes = t.classes := by
  rw [applyProps_eq]

/-- Style flush leaves the class list untouched. -/
theorem applyStyles_classes (t : Elem) (m : List (String × JSVal)) :
    (applyStyles t m).classes = t.classes := by
  rw [applyStyles_eq]

/-- Both pending class slots after queueing a remove then an add. -/
theorem getAddSlot_setAddSlot (co : ClassOps) (c : String) :
    getAddSlot (setAddSlot co c) = some c := by
  cases co <;> rfl

/-- Queueing an add-class does not change the pending remove-class value. -/
theorem getRemSlot_setAddSlot (co : ClassOps) (c : String) :
    getRemSlot (setAddSlot co c) = getRemSlot co := by
  cases co <;> rfl

/-- Queueing a remove-class records that value in the remove slot. -/
theorem getRemSlot_setRemSlot (co : ClassOps) (c : String) :
    getRemSlot (setRemSlot co c) = some c := by
  cases co <;> rfl

/-- Flushing the class slots produced by `removeClass "hide"` then
`addClass "show"` onto an empty class list yields exactly `show`, whatever
the slots held before. -/
theorem applyClassOps_hide_show (co : ClassOps) :
    applyClassOps (setAddSlot (setRemSlot co "hide") "show") [] = ["show"] := by
  cases co <;> rfl

/-- `addClass` commutes with replacing the element reference: it writes
only the queue. -/
theorem addClass_swap (el : Element) (e2 : Option Elem) (c : String) :
    addClass { el with element := e2 } c = { addClass el c with element := e2 } := rfl

/-- `removeClass` commutes with replacing the element reference. -/
theorem removeClass_swap (el : Element) (e2 : Option Elem) (c : String) :
    removeClass { el with element := e2 } c = { removeClass el c with element := e2 } := rfl

/-- `setAttribute` commutes with replacing the element reference. -/
theorem setAttribute_swap (el : Element) (e2 : Option Elem) (k : String) (v : JSVal) :
    setAttribute { el with element := e2 } k v = { setAttribute el k v with element := e2 } := rfl

/-- `setProperty` commutes with replacing the element reference. -/
theorem setProperty_swap (el : Element) (e2 : Option Elem) (k : String) (v : JSVal) :
    setProperty { el with element := e2 } k v = { setProperty el k v with element := e2 } := rfl

/-- `setStyle` commutes with replacing the element reference. -/
theorem setStyle_swap (el : Element) (e2 : Option Elem) (k : String) (v : JSVal) :
    setStyle { el with element := e2 } k v = { setStyle el k v with element := e2 } := rfl

/-- `setAttributes` commutes with replacing the element reference. -/
theorem setAttributes_swap (el : Element) (e2 : Option Elem) (m : List (String × JSVal)) :
    setAttributes { el with element := e2 } m = { setAttributes el m with element := e2 } := by
  induction m generalizing el with
  | nil => rfl
  | cons p rest ih =>
      have h1 : setAttributes { el with element := e2 } (p :: rest) =
          setAttributes (setAttribute { el with element := e2 } p.1 p.2) rest := rfl
      rw [h1, setAttribute_swap, ih]
      rfl

/-- `setProperties` commutes with replacing the element reference. -/
theorem setProperties_swap (el : Element) (e2 : Option Elem) (m : List (String × JSVal)) :
    setProperties { el with element := e2 } m = { setProperties el m with element := e2 } := by
  induction m generalizing el with
  | nil => rfl
  | cons p rest ih =>
      have h1 : setProperties { el with element := e2 } (p :: rest) =
          setProperties (setProperty { el with element := e2 } p.1 p.2) rest := rfl
      rw [h1, setProperty_swap, ih]
      rfl

/-- `setStyles` commutes with replacing the element reference. -/
theorem setStyles_swap (el : Element) (e2 : Option Elem) (m : List (String × JSVal)) :
    setStyles { el with element := e2 } m = { setStyles el m with element := e2 } := by
  induction m generalizing el with
  | nil => rfl
  | cons p rest ih =>
      have h1 : setStyles { el with element := e2 } (p :: rest) =
          setStyles (setStyle { el with element := e2 } p.1 p.2) rest := rfl
      rw [h1, setStyle_swap, ih]
      rfl

/-- `setAria` commutes with replacing the element reference. -/
theorem setAria_swap (aria : Bool) (el : Element) (e2 : Option Elem) (k : String) (v : JSVal) :
    setAria aria { el with element := e2 } k v = { setAria aria el k v with element := e2 } := by
  by_cases h1 : aria = false
  · simp [setAria, h1]
  · by_cases h2 : k = "toggled" <;> simp [setAria, h1, h2, setAriaOne] <;> rfl

/-- `setArias` commutes with replacing the element reference. -/
theorem setArias_swap (aria : Bool) (el : Element) (e2 : Option Elem) (m : List (String × JSVal)) :
    setArias aria { el with element := e2 } m = { setArias aria el m with element := e2 } := by
  induction m generalizing el with
  | nil => rfl
  | cons p rest ih =>
      have h1 : setArias aria { el with element := e2 } (p :: rest) =
          setArias aria (setAria aria { el with element := e2 } p.1 p.2) rest := rfl
      rw [h1, setAria_swap, ih]
      rfl

end Titon

namespace Titon

/-- Attribute flush records exactly the fold of JS assignments over the
pending attributes. -/
theorem applyAttrs_attributes (t : Elem) (m : List (String × String)) :
    (applyAttrs t m).attributes = m.foldl (fun a p => jsSet a p.1 p.2) t.attributes := by
  rw [applyAttrs_eq]

/-- Property flush leaves the target attributes untouched. -/
theorem applyProps_attributes (t : Elem) (m : List (String × JSVal)) :
    (applyProps t m).attributes = t.attributes := by
  rw [applyProps_eq]

/-- Style flush leaves the target attributes untouched. -/
theorem applyStyles_attributes (t : Elem) (m : List (String × JSVal)) :
    (applyStyles t m).attributes = t.attributes := by
  rw [applyStyles_eq]

/-- Attribute flush leaves the target properties untouched. -/
theorem applyAttrs_properties (t : Elem) (m : List (String × String)) :
    (applyAttrs t m).properties = t.properties := by
  rw [applyAttrs_eq]

/-- Property flush records exactly the fold of JS assignments over the
pending properties. -/
theorem applyProps_properties (t : Elem) (m : List (String × JSVal)) :
    (applyProps t m).properties = m.foldl (fun a p => jsSet a p.1 p.2) t.properties := by
  rw [applyProps_eq]

/-- Style flush leaves the target properties untouched. -/
theorem applyStyles_properties (t : Elem) (m : List (String × JSVal)) :
    (applyStyles t m).properties = t.properties := by
  rw [applyStyles_eq]

/-- Attribute flush leaves the target styles untouched. -/
theorem applyAttrs_styles (t : Elem) (m : List (String × String)) :
    (applyAttrs t m).styles = t.styles := by
  rw [applyAttrs_eq]

/-- Property flush leaves the target styles untouched. -/
theorem applyProps_styles (t : Elem) (m : List (String × JSVal)) :
    (applyProps t m).styles = t.styles := by
  rw [applyProps_eq]

/-- Style flush records exactly the fold of JS assignments over the
pending styles. -/
theorem applyStyles_styles (t : Elem) (m : List (String × JSVal)) :
    (applyStyles t m).styles = m.foldl (fun a p => jsSet a p.1 p.2) t.styles := by
  rw [applyStyles_eq]

/-- Shape of the element produced by a successful flush: the three maps
are applied first (they commute with the class mutations, which touch a
disjoint component), then the class slots in insertion order. -/
theorem flushedElem_of_element (el : Element) (t : Elem) (hel : el.element = some t) :
    flushedElem el = some
      ⟨applyClassOps el.queue.classOps
          (applyStyles (applyProps (applyAttrs t el.queue.attributes) el.queue.properties)
            el.queue.styles).classes,
        (applyStyles (applyProps (applyAttrs t el.queue.attributes) el.queue.properties)
            el.queue.styles).attributes,
        (applyStyles (applyProps (applyAttrs t el.queue.attributes) el.queue.properties)
            el.queue.styles).properties,
        (applyStyles (applyProps (applyAttrs t el.queue.attributes) el.queue.properties)
            el.queue.styles).styles⟩ := by
  rcases el with ⟨elem, q, rd, wr⟩
  obtain rfl : elem = some t := hel
  rfl

/-- Claim C9: when global accessibility support is disabled, `setAria`
returns the scheduler instance unchanged — the target's attributes and the
pending mutation queue are left exactly as they were. -/
theorem C9_setAria_disabled_noop (el : Element) (k : String) (v : JSVal) :
    setAria false el k v = el := by
  simp [setAria]

/-- Claim C10 (implicit): every synchronous queue setter (`addClass`,
`removeClass`, `setAttribute`/`setAttributes`, `setProperty`/
`setProperties`, `setStyle`/`setStyles`, and `setAria`/`setArias` with ARIA
enabled) writes only the scheduler's pending queue and never reads from or
writes to the target element: each setter commutes with replacing the
element reference, so its effect on the queue is independent of the target
and the target reference it leaves behind is exactly the one it was given;
the target itself is only mutated by `processQueue`. -/
theorem C10_setters_queue_only (el : Element) (e2 : Option Elem) (c k : String)
    (v : JSVal) (m : List (String × JSVal)) :
    (addClass { el with element := e2 } c = { addClass el c with element := e2 }) ∧
    (removeClass { el with element := e2 } c = { removeClass el c with element := e2 }) ∧
    (setAttribute { el with element := e2 } k v = { setAttribute el k v with element := e2 }) ∧
    (setAttributes { el with element := e2 } m = { setAttributes el m with element := e2 }) ∧
    (setProperty { el with element := e2 } k v = { setProperty el k v with element := e2 }) ∧
    (setProperties { el with element := e2 } m = { setProperties el m with element := e2 }) ∧
    (setStyle { el with element := e2 } k v = { setStyle el k v with element := e2 }) ∧
    (setStyles { el with element := e2 } m = { setStyles el m with element := e2 }) ∧
    (setAria true { el with element := e2 } k v = { setAria true el k v with element := e2 }) ∧
    (setArias true { el with element := e2 } m = { setArias true el m with element := e2 }) :=
  ⟨addClass_swap el e2 c, removeClass_swap el e2 c, setAttribute_swap el e2 k v,
   setAttributes_swap el e2 m, setProperty_swap el e2 k v, setProperties_swap el e2 m,
   setStyle_swap el e2 k v, setStyles_swap el e2 m, setAria_swap true el e2 k v,
   setArias_swap true el e2 m⟩

/-- Claim C7: `hasClass` reflects only the currently applied target state,
ignoring any uncommitted `addClass`/`removeClass` in the queue; in
particular, after queueing `addClass "x"` without a flush on a target not
carrying `x`, `hasClass "x"` still answers `false`. -/
theorem C7_hasClass_ignores_queue :
    (∀ (el : Element) (c x : String),
        hasClass (addClass el x) c = hasClass el c ∧
        hasClass (removeClass el x) c = hasClass el c) ∧
    (∀ (el : Element) (t : Elem), el.element = some t →
        t.classes.contains "x" = false →
        hasClass (addClass el "x") "x" = some false) := by
  constructor
  · intro el c x
    exact ⟨rfl, rfl⟩
  · intro el t hel hc
    have hc2 : "x" ∉ t.classes := by simpa using hc
    simp [hasClass, addClass, hel, hc2]

/-- Witness for C7 at a fresh scheduler over the empty target. -/
theorem C7_hasClass_ignores_queue_witness :
    (construct (some t0)).element = some t0 ∧ t0.classes.contains "x" = false ∧
    hasClass (addClass (construct (some t0)) "x") "x" = some false :=
  ⟨rfl, rfl, C7_hasClass_ignores_queue.2 (construct (some t0)) t0 rfl rfl⟩

/-- Claim C3: a `read` issued while `reading` is set, and a `write` issued
while `writing` is set, return the null sentinel, leave the whole state
unchanged and register no frame task, so the supplied callback is never
invoked on that tick or any later tick; the closed scenario runs the frame
loop to completion on a read whose callback issues a nested `read` — only
the outer callback is ever invoked and no task remains. -/
theorem C3_reentrancy_guard :
    (∀ (s : Sys) (cbId : Nat) (body : Act), s.el.reading = true →
        read s cbId body = (s, CallRes.nullRes)) ∧
    (∀ (s : Sys) (cb : Option (Nat × Act)), s.el.writing = true →
        write s cb = (s, WCallRes.nullRes)) ∧
    (runLoop 4 (read sys0 1 (Act.nestedRead 2 Act.nop)).1).invoked = [1] ∧
    (runLoop 4 (read sys0 1 (Act.nestedRead 2 Act.nop)).1).tasks = [] := by
  refine ⟨?_, ?_, by decide, by decide⟩
  · intro s cbId body h
    simp [read, h]
  · intro s cb h
    simp [write, h]

/-- Witness for C3: a scheduler with `reading` set refuses a `read`, one
with `writing` set refuses a `write`. -/
theorem C3_reentrancy_guard_witness :
    sysR.el.reading = true ∧ read sysR 7 Act.nop = (sysR, CallRes.nullRes) ∧
    sysW.el.writing = true ∧ write sysW none = (sysW, WCallRes.nullRes) :=
  ⟨rfl, C3_reentrancy_guard.1 sysR 7 Act.nop rfl,
   rfl, C3_reentrancy_guard.2.1 sysW none rfl⟩

/-- Claim C2 is violated by the code (bug evidence, evaluated at the
failing input): after a read callback throws inside the frame tick, the
`reading` flag is left `true` — the line clearing it sits inside the `try`
after the call — so the next `read` on the same instance returns the null
sentinel; after a write callback throws, `writing` is left `true` and the
exception escapes `write`, so the next `write` returns the null sentinel. -/
theorem C2_flag_stuck_eval :
    (runLoop 4 (read sys0 1 Act.throwErr).1).el.reading = true ∧
    (read (runLoop 4 (read sys0 1 Act.throwErr).1) 2 Act.nop).2 = CallRes.nullRes ∧
    (write sys0 (some (3, Act.throwErr))).2 = WCallRes.threwRes ∧
    (write sys0 (some (3, Act.throwErr))).1.el.writing = true ∧
    (write (write sys0 (some (3, Act.throwErr))).1 none).2 = WCallRes.nullRes := by
  refine ⟨by decide, by decide, by decide, by decide, by decide⟩

/-- Claim C6 fails for write callbacks: the thrown error escapes `write`
synchronously and no future is created at all, so no future transitions to
a rejected state. -/
theorem C6_write_not_caught :
    (write sys0 (some (1, Act.throwErr))).2 = WCallRes.threwRes ∧
    (write sys0 (some (1, Act.throwErr))).1.futures = [] := by
  refine ⟨by decide, by decide⟩

/-- Claim C6 (amended): an error thrown by a read callback is caught at
the scheduler boundary and the read future rejects carrying the scheduler
instance, not the error object; an error thrown by a synchronous write
callback is not caught — `write` lets it escape and returns no future; an
error thrown by the deferred flush itself (missing target) rejects the
write future, again with the scheduler instance. -/
theorem C6_rejection_payload :
    (∀ (s : Sys) (cbId : Nat) (body : Act) (fid : Nat),
        (readTick s cbId body).2 = true →
        getFuture (runTask (Task.readT cbId body fid) s) fid =
          some (FState.rejected Payload.inst)) ∧
    (∀ (s : Sys) (cbId : Nat) (body : Act),
        s.el.writing = false →
        (execAct body (writeStart s cbId)).2 = true →
        (write s (some (cbId, body))).2 = WCallRes.threwRes) ∧
    (∀ (s : Sys) (fid : Nat), s.el.element = none →
        getFuture (runTask (Task.writeT fid) s) fid =
          some (FState.rejected Payload.inst)) := by
  refine ⟨?_, ?_, ?_⟩
  · intro s cbId body fid h
    rcases he : readTick s cbId body with ⟨s2, thr⟩
    rw [he] at h
    simp only at h
    subst h
    simp [runTask, he, getFuture, setFuture, lookup_jsSet_self]
  · intro s cbId body h1 h2
    rcases he : execAct body (writeStart s cbId) with ⟨s2, thr⟩
    rw [he] at h2
    simp only at h2
    subst h2
    simp [write, h1, he]
  · intro s fid h
    simp [runTask, processQueue, h, getFuture, setFuture, lookup_jsSet_self]

/-- Witness for the amended C6 at a throwing read callback on a fresh
scheduler. -/
theorem C6_rejection_payload_witness :
    (readTick sys0 1 Act.throwErr).2 = true ∧
    getFuture (runTask (Task.readT 1 Act.throwErr 0) sys0) 0 =
      some (FState.rejected Payload.inst) :=
  ⟨rfl, C6_rejection_payload.1 sys0 1 Act.throwErr 0 rfl⟩

end Titon

namespace Titon

/-- Claim C1 fails as stated: on a queue where `removeClass "x"` was
queued before `addClass "x"`, the `forOwn` loop applies remove first and
add second (key insertion order), leaving class `x` on the target, whereas
the claimed fixed order (add-class first, then remove-class) would leave
the target without it. -/
theorem C1_fixed_order_counterexample :
    flushedElem elC1 ≠ specFlushedElem elC1 ∧
    (flushedElem elC1).map Elem.classes = some ["x"] ∧
    (specFlushedElem elC1).map Elem.classes = some [] := by
  refine ⟨by decide, by decide, by decide⟩

/-- Claim C1 (amended): `processQueue` applies the pending add-class and
remove-class mutations in the order their keys were first queued since the
last reset, together with all pending attributes, properties and styles
(whose application commutes with the class changes, as they touch disjoint
components of the target), and finally resets the queue; whenever
remove-class was not queued before add-class this coincides with the
claimed fixed order, i.e. `processQueue` agrees with `specProcessQueue`. -/
theorem C1_flush_insertion_order (el : Element) (t : Elem)
    (hel : el.element = some t) (hco : isRemAdd el.queue.classOps = false) :
    processQueue el = specProcessQueue el := by
  rcases el with ⟨elem, ⟨qa, qp, qs, co⟩, rd, wr⟩
  obtain rfl : elem = some t := hel
  cases co with
  | none =>
      simp [processQueue, specProcessQueue, applyAttrs_eq, applyProps_eq,
        applyStyles_eq, applyClassOps, getAddSlot, getRemSlot]
  | addOnly a =>
      simp [processQueue, specProcessQueue, applyAttrs_eq, applyProps_eq,
        applyStyles_eq, applyClassOps, getAddSlot, getRemSlot]
  | remOnly r =>
      simp [processQueue, specProcessQueue, applyAttrs_eq, applyProps_eq,
        applyStyles_eq, applyClassOps, getAddSlot, getRemSlot]
  | addRem a r =>
      simp [processQueue, specProcessQueue, applyAttrs_eq, applyProps_eq,
        applyStyles_eq, applyClassOps, getAddSlot, getRemSlot]
  | remAdd r a =>
      simp [isRemAdd] at hco

/-- Witness for the amended C1: a fresh scheduler with `addClass "a"`
queued before `removeClass "b"` flushes in the claimed fixed order. -/
theorem C1_flush_insertion_order_witness :
    elW1.element = some t0 ∧ isRemAdd elW1.queue.classOps = false ∧
    processQueue elW1 = specProcessQueue elW1 :=
  ⟨rfl, rfl, C1_flush_insertion_order elW1 t0 rfl rfl⟩

/-- Claim C5: queueing `addClass "show"` then `removeClass "show"` on a
scheduler whose class slots are empty (fresh or just flushed) and then
flushing leaves the target without class `show` — remove is applied after
add because its key was inserted after — and resets the queue completely,
leaving no residual pending mutation of any kind. -/
theorem C5_add_then_remove_flush (el : Element) (t : Elem)
    (hel : el.element = some t) (hco : el.queue.classOps = ClassOps.none) :
    (∃ t2, flushedElem (removeClass (addClass el "show") "show") = some t2 ∧
        t2.classes.contains "show" = false) ∧
    (∀ el2, processQueue (removeClass (addClass el "show") "show") = Except.ok el2 →
        el2.queue = resetQueueVal) := by
  rcases el with ⟨elem, ⟨qa, qp, qs, co⟩, rd, wr⟩
  obtain rfl : elem = some t := hel
  obtain rfl : co = ClassOps.none := hco
  constructor
  · refine ⟨_, rfl, ?_⟩
    exact classListRemove_contains_self _ _
  · intro el2 h
    injection h with h2
    subst h2
    rfl

/-- Witness for C5 at a fresh scheduler over the empty target. -/
theorem C5_add_then_remove_flush_witness :
    (construct (some t0)).element = some t0 ∧
    (construct (some t0)).queue.classOps = ClassOps.none ∧
    (∃ t2, flushedElem (removeClass (addClass (construct (some t0)) "show") "show") = some t2 ∧
        t2.classes.contains "show" = false) :=
  ⟨rfl, rfl, (C5_add_then_remove_flush (construct (some t0)) t0 rfl rfl).1⟩

/-- Claim C8: with accessibility support enabled, `reveal(false)` on a
target with no pre-existing classes queues — all pending simultaneously —
a clearing of the display style (empty-string assignment), remove-class
`hide`, add-class `show`, and `aria-hidden` set to `"false"`; flushing
then leaves the target class set exactly the singleton `show`, with no `hide`
class ("no conflicting classes" is read as an empty starting class list,
as the claimed exact singleton outcome requires). -/
theorem C8_reveal_queue_and_flush (el : Element) (t : Elem)
    (hel : el.element = some t) (hcl : t.classes = []) :
    ((reveal true el false).queue.styles.lookup "display" = some (JSVal.str "")) ∧
    (getRemSlot (reveal true el false).queue.classOps = some "hide") ∧
    (getAddSlot (reveal true el false).queue.classOps = some "show") ∧
    ((reveal true el false).queue.attributes.lookup "aria-hidden" = some "false") ∧
    (∃ t2, flushedElem (reveal true el false) = some t2 ∧ t2.classes = ["show"]) := by
  rcases el with ⟨elem, ⟨qa, qp, qs, co⟩, rd, wr⟩
  obtain rfl : elem = some t := hel
  have hrev : reveal true ⟨some t, ⟨qa, qp, qs, co⟩, rd, wr⟩ false =
      ⟨some t, ⟨jsSet qa "aria-hidden" "false", qp, jsSet qs "display" (JSVal.str ""),
        setAddSlot (setRemSlot co "hide") "show"⟩, rd, wr⟩ := rfl
  rw [hrev]
  refine ⟨lookup_jsSet_self _ _ _, ?_, ?_, lookup_jsSet_self _ _ _, ?_⟩
  · rw [show Queue.classOps ⟨jsSet qa "aria-hidden" "false", qp,
        jsSet qs "display" (JSVal.str ""), setAddSlot (setRemSlot co "hide") "show"⟩ =
        setAddSlot (setRemSlot co "hide") "show" from rfl,
      getRemSlot_setAddSlot, getRemSlot_setRemSlot]
  · rw [show Queue.classOps ⟨jsSet qa "aria-hidden" "false", qp,
        jsSet qs "display" (JSVal.str ""), setAddSlot (setRemSlot co "hide") "show"⟩ =
        setAddSlot (setRemSlot co "hide") "show" from rfl,
      getAddSlot_setAddSlot]
  · refine ⟨_, flushedElem_of_element _ t rfl, ?_⟩
    dsimp only
    rw [applyStyles_classes, applyProps_classes, applyAttrs_classes, hcl]
    exact applyClassOps_hide_show co

/-- Witness for C8 at a fresh scheduler over the empty target. -/
theorem C8_reveal_queue_and_flush_witness :
    (construct (some t0)).element = some t0 ∧ t0.classes = [] ∧
    (∃ t2, flushedElem (reveal true (construct (some t0)) false) = some t2 ∧
        t2.classes = ["show"]) :=
  ⟨rfl, rfl, (C8_reveal_queue_and_flush (construct (some t0)) t0 rfl rfl).2.2.2.2⟩

/-- Claim C4: last-write-wins — for any sequence of synchronous
queue-setter calls performed before a flush, the value the flush applies
to the target for each key is the one from the last `setAttribute` /
`setProperty` / `setStyle` call with that key (stringified for
attributes), not a queued list of earlier values. -/
theorem C4_last_write_wins (el : Element) (t : Elem) (ops : List QOp) (k : String)
    (hel : el.element = some t) (hwf : WFQueue el.queue) :
    (∀ v, lastVal selAttr ops k = some v →
        flushAttr (applyOps el ops) k = some (jsToString v)) ∧
    (∀ v, lastVal selProp ops k = some v →
        flushProp (applyOps el ops) k = some v) ∧
    (∀ v, lastVal selStyle ops k = some v →
        flushStyle (applyOps el ops) k = some v) := by
  have hE : (applyOps el ops).element = some t := by rw [applyOps_element, hel]
  have hwfE : WFQueue (applyOps el ops).queue := wfQueue_applyOps el ops hwf
  refine ⟨?_, ?_, ?_⟩
  · intro v hv
    rw [flushAttr, flushedElem_of_element _ t hE]
    dsimp only [Option.bind]
    rw [applyStyles_attributes, applyProps_attributes, applyAttrs_attributes]
    exact foldl_jsSet_lookup _ _ _ _ hwfE.1 (applyOps_attr_lookup ops k v el hv)
  · intro v hv
    rw [flushProp, flushedElem_of_element _ t hE]
    dsimp only [Option.bind]
    rw [applyStyles_properties, applyProps_properties, applyAttrs_properties]
    exact foldl_jsSet_lookup _ _ _ _ hwfE.2.1 (applyOps_prop_lookup ops k v el hv)
  · intro v hv
    rw [flushStyle, flushedElem_of_element _ t hE]
    dsimp only [Option.bind]
    rw [applyStyles_styles, applyProps_styles, applyAttrs_styles]
    exact foldl_jsSet_lookup _ _ _ _ hwfE.2.2 (applyOps_style_lookup ops k v el hv)

/-- Witness for C4: two `setAttribute` calls on the same key, flushed from
a fresh scheduler — the flushed value is the second one. -/
theorem C4_last_write_wins_witness :
    (construct (some t0)).element = some t0 ∧ WFQueue (construct (some t0)).queue ∧
    flushAttr (applyOps (construct (some t0))
      [QOp.setAttr "a" (JSVal.str "1"), QOp.setAttr "a" (JSVal.str "2")]) "a" = some "2" :=
  ⟨rfl, ⟨List.nodup_nil, List.nodup_nil, List.nodup_nil⟩,
   (C4_last_write_wins (construct (some t0)) t0
      [QOp.setAttr "a" (JSVal.str "1"), QOp.setAttr "a" (JSVal.str "2")] "a" rfl
      ⟨List.nodup_nil, List.nodup_nil, List.nodup_nil⟩).1 (JSVal.str "2") (by decide)⟩

end Titon
